import Mathlib

/-
  Verification of batch-file-renamer.py (roboticsmick/batch_file_renamer).

  Shallow embedding: Python strings are modelled as lists of characters
  (Str), the filesystem as a list of existing paths, directory trees as an
  inductive type, and console output relevant to the claims (the scan-cap
  warning, the permission-error message) as boolean flags in the results.
-/

namespace BatchRenamer

abbrev Str := List Char

/-- MAX_FILES_LIMIT = 10000 (source line 71). -/
def MAX_FILES_LIMIT : Nat := 10000

/-- Python str.count for a single character: number of occurrences of c in s. -/
def countCh (c : Char) : Str → Nat
  | [] => 0
  | x :: xs => (if x = c then 1 else 0) + countCh c xs

/-- Python str.replace(old, new) for a single-character old: every occurrence
of c is replaced by the string repl, in one left-to-right pass. -/
def replaceAllChar (c : Char) (repl : Str) : Str → Str
  | [] => []
  | x :: xs => (if x = c then repl else [x]) ++ replaceAllChar c repl xs

/-- Python name.startswith(".") (source line 168). -/
def isHidden : Str → Bool
  | [] => false
  | c :: _ => c = '.'

/-- Split a name at its last dot: (base, ext) with ext including the dot,
mirroring rfind(".") and the slicing at source lines 171-180. If no dot
exists, ext is empty and base is the whole name. -/
def splitLastDot : Str → Str × Str
  | [] => ([], [])
  | c :: cs =>
      let p := splitLastDot cs
      if p.2.isEmpty then
        if c = '.' then ([], c :: cs) else (c :: cs, [])
      else (c :: p.1, p.2)

/-- new_base_name of source lines 193-196: the dot and space substitution is
performed only when some dot or space is present in the base. -/
def newBaseName (base repl : Str) : Str :=
  if 0 < countCh '.' base ∨ 0 < countCh ' ' base then
    replaceAllChar ' ' repl (replaceAllChar '.' repl base)
  else base

/-- Source lines 199-202: wrap the substituted base with pfx/sfx and
reattach the extension. -/
def rebuiltName (original repl pfx sfx : Str) : Str :=
  pfx ++ newBaseName (splitLastDot original).1 repl ++ sfx ++ (splitLastDot original).2

/-- generate_new_filename (source lines 144-206), minus the two asserts,
which are preconditions stated as hypotheses of the theorems below. -/
def generate_new_filename (original_filename repl pfx sfx : Str) : Str × Bool :=
  if isHidden original_filename then (original_filename, false)
  else if (countCh '.' (splitLastDot original_filename).1 = 0 ∧
           countCh ' ' (splitLastDot original_filename).1 = 0) ∧ (pfx = [] ∧ sfx = []) then
    (original_filename, false)
  else
    (rebuiltName original_filename repl pfx sfx,
     decide (rebuiltName original_filename repl pfx sfx ≠ original_filename))

/-- The rebuilt name as the spec words it: replace every dot and then every
space in the base unconditionally, wrap with pfx/sfx, reattach the extension. -/
def specRebuiltName (name repl pfx sfx : Str) : Str :=
  pfx ++ replaceAllChar ' ' repl (replaceAllChar '.' repl (splitLastDot name).1) ++ sfx ++
    (splitLastDot name).2

/-- Reference transform written from the words of the spec (claim C1):
hidden names unchanged; split at the last dot; if the base has no dot and
no space and pfx and sfx are empty return (name, false); otherwise replace
every dot and then every space in the base, wrap as pfx ++ base ++ sfx and
reattach the extension; changed is true iff the result differs from name. -/
def specGenerateNewFilename (name repl pfx sfx : Str) : Str × Bool :=
  if isHidden name then (name, false)
  else if ('.' ∉ (splitLastDot name).1) ∧ (' ' ∉ (splitLastDot name).1) ∧
          pfx = [] ∧ sfx = [] then
    (name, false)
  else
    (specRebuiltName name repl pfx sfx, decide (specRebuiltName name repl pfx sfx ≠ name))

theorem countCh_eq_zero {c : Char} {s : Str} : countCh c s = 0 ↔ c ∉ s := by
  induction s with
  | nil => simp [countCh]
  | cons x xs ih =>
      by_cases h : x = c
      · subst h; simp [countCh]
      · simp [countCh, h, ih, Ne.symm h]

theorem replaceAllChar_not_mem {c : Char} {s : Str} (repl : Str) (h : c ∉ s) :
    replaceAllChar c repl s = s := by
  induction s with
  | nil => rfl
  | cons x xs ih =>
      simp only [List.mem_cons, not_or] at h
      simp [replaceAllChar, Ne.symm h.1, ih h.2]

theorem newBaseName_eq_unconditional (base repl : Str) :
    newBaseName base repl = replaceAllChar ' ' repl (replaceAllChar '.' repl base) := by
  unfold newBaseName
  split
  · rfl
  · next h =>
      push_neg at h
      have h1 : '.' ∉ base := countCh_eq_zero.mp (by omega)
      have h2 : ' ' ∉ base := countCh_eq_zero.mp (by omega)
      rw [replaceAllChar_not_mem repl h1, replaceAllChar_not_mem repl h2]

theorem rebuiltName_eq_spec (original repl pfx sfx : Str) :
    rebuiltName original repl pfx sfx = specRebuiltName original repl pfx sfx := by
  unfold rebuiltName specRebuiltName
  rw [newBaseName_eq_unconditional]

theorem gen_eq_spec (name repl pfx sfx : Str) :
    generate_new_filename name repl pfx sfx = specGenerateNewFilename name repl pfx sfx := by
  unfold generate_new_filename specGenerateNewFilename
  simp only [rebuiltName_eq_spec]
  by_cases hh : isHidden name = true
  · rw [if_pos hh, if_pos hh]
  · rw [if_neg hh, if_neg hh]
    by_cases hc : ('.' ∉ (splitLastDot name).1) ∧ (' ' ∉ (splitLastDot name).1) ∧
        pfx = [] ∧ sfx = []
    · rw [if_pos ⟨⟨countCh_eq_zero.mpr hc.1, countCh_eq_zero.mpr hc.2.1⟩,
            ⟨hc.2.2.1, hc.2.2.2⟩⟩, if_pos hc]
    · have hsrc : ¬ ((countCh '.' (splitLastDot name).1 = 0 ∧
          countCh ' ' (splitLastDot name).1 = 0) ∧ (pfx = [] ∧ sfx = [])) := by
        intro h
        exact hc ⟨countCh_eq_zero.mp h.1.1, countCh_eq_zero.mp h.1.2, h.2.1, h.2.2⟩
      rw [if_neg hsrc, if_neg hc]

theorem gen_snd_iff (name repl pfx sfx : Str) :
    ((generate_new_filename name repl pfx sfx).2 = true) ↔
      (generate_new_filename name repl pfx sfx).1 ≠ name := by
  unfold generate_new_filename
  split
  · simp
  · split
    · simp
    · simp

theorem gen_noop_of_clean (m repl : Str)
    (h1 : countCh '.' (splitLastDot m).1 = 0) (h2 : countCh ' ' (splitLastDot m).1 = 0) :
    generate_new_filename m repl [] [] = (m, false) := by
  unfold generate_new_filename
  by_cases hh : isHidden m = true
  · rw [if_pos hh]
  · rw [if_neg hh, if_pos ⟨⟨h1, h2⟩, ⟨rfl, rfl⟩⟩]

/-- C1: for every non-empty filename, generate_new_filename agrees with the
reference transform written from the spec sentence by sentence
(specGenerateNewFilename), and in particular "t2.v1.image.jpg.mp4" with
replacement "_" and empty pfx/sfx maps to "t2_v1_image_jpg.mp4". -/
theorem C1_generate_matches_reference (name repl pfx sfx : Str) (_hne : name ≠ []) :
    generate_new_filename name repl pfx sfx = specGenerateNewFilename name repl pfx sfx ∧
    (generate_new_filename "t2.v1.image.jpg.mp4".toList "_".toList [] []).1 =
      "t2_v1_image_jpg.mp4".toList :=
  ⟨gen_eq_spec name repl pfx sfx, by decide⟩

theorem C1_generate_matches_reference_witness :
    ("t2.v1.image.jpg.mp4".toList : Str) ≠ [] ∧
    (generate_new_filename "t2.v1.image.jpg.mp4".toList "_".toList [] [] =
       specGenerateNewFilename "t2.v1.image.jpg.mp4".toList "_".toList [] [] ∧
     (generate_new_filename "t2.v1.image.jpg.mp4".toList "_".toList [] []).1 =
       "t2_v1_image_jpg.mp4".toList) :=
  ⟨by decide, C1_generate_matches_reference "t2.v1.image.jpg.mp4".toList "_".toList [] []
    (by decide)⟩

/-- C6: for every non-empty filename and every replacement/pfx/sfx, the
changed flag returned by generate_new_filename is true exactly when the
returned filename differs from the input filename. -/
theorem C6_changed_iff_differs (name repl pfx sfx : Str) (_hne : name ≠ []) :
    ((generate_new_filename name repl pfx sfx).2 = true) ↔
      (generate_new_filename name repl pfx sfx).1 ≠ name :=
  gen_snd_iff name repl pfx sfx

theorem C6_changed_iff_differs_witness :
    ("a.b.txt".toList : Str) ≠ [] ∧
    (((generate_new_filename "a.b.txt".toList ".".toList [] []).2 = true) ↔
      (generate_new_filename "a.b.txt".toList ".".toList [] []).1 ≠ "a.b.txt".toList) :=
  ⟨by decide, C6_changed_iff_differs "a.b.txt".toList ".".toList [] [] (by decide)⟩

/-- C7: with empty pfx and sfx, once the result of one application has no
dot and no space left in its base, a second application returns it
unchanged with changed = false; with a non-empty pfx this fails because the
pfx is prepended again (concrete instance on "data.csv" with pfx "p_"). -/
theorem C7_idempotent_once_settled :
    (∀ (name repl : Str),
        countCh '.' (splitLastDot (generate_new_filename name repl [] []).1).1 = 0 →
        countCh ' ' (splitLastDot (generate_new_filename name repl [] []).1).1 = 0 →
        generate_new_filename (generate_new_filename name repl [] []).1 repl [] [] =
          ((generate_new_filename name repl [] []).1, false)) ∧
    (generate_new_filename
        (generate_new_filename "data.csv".toList "_".toList "p_".toList []).1
        "_".toList "p_".toList []).1 ≠
      (generate_new_filename "data.csv".toList "_".toList "p_".toList []).1 :=
  ⟨fun _ repl h1 h2 => gen_noop_of_clean _ repl h1 h2, by decide⟩

theorem C7_idempotent_once_settled_witness :
    countCh '.' (splitLastDot (generate_new_filename "a b.txt".toList "_".toList [] []).1).1
      = 0 ∧
    countCh ' ' (splitLastDot (generate_new_filename "a b.txt".toList "_".toList [] []).1).1
      = 0 ∧
    generate_new_filename (generate_new_filename "a b.txt".toList "_".toList [] []).1
        "_".toList [] [] =
      ((generate_new_filename "a b.txt".toList "_".toList [] []).1, false) :=
  ⟨by decide, by decide,
    C7_idempotent_once_settled.1 "a b.txt".toList "_".toList (by decide) (by decide)⟩

/-- The stats dictionary built at source lines 224-231; the six keys become
six fields (there is no other key). -/
structure ScanStats where
  total_files_scanned : Nat
  hidden_files_skipped : Nat
  hidden_dirs_skipped : Nat
  files_already_clean : Nat
  files_to_rename : Nat
  directories_scanned : Nat
deriving DecidableEq

/-- One tuple of the files_to_rename list (source lines 262 and 302). -/
structure ScanEntry where
  original_path : Str
  new_path : Str
  original_name : Str
  new_name : Str
deriving DecidableEq

/-- Accumulated scan state; stopped models the early return with the
"Exceeded ... files. Stopping scan." warning (source lines 246-248, 287-289):
once it is set, the remaining loop iterations of the Python code are never
executed. -/
structure ScanState where
  entries : List ScanEntry
  stats : ScanStats
  stopped : Bool
deriving DecidableEq

def initStats : ScanStats := ⟨0, 0, 0, 0, 0, 0⟩

def initScanState : ScanState := ⟨[], initStats, false⟩

/-- os.path.join on POSIX with a directory root and a simple name. -/
def pathJoin (root name : Str) : Str := root ++ '/' :: name

/-- One directory of the tree being scanned: named subdirectories and the
plain file names it contains. -/
inductive DirTree where
  | node (subdirs : List (Str × DirTree)) (files : List Str)

/-- One (root, dirnames, filenames) triple yielded by os.walk. -/
structure WalkFrame where
  root : Str
  dirnames : List Str
  filenames : List Str
deriving DecidableEq

mutual
/-- The sequence of triples os.walk(directory_path) yields, top-down, after
the in-place pruning of hidden subdirectories at source line 241: a hidden
subdirectory still appears in its parent frame's dirnames but is never
descended into. -/
def walk (root : Str) : DirTree → List WalkFrame
  | DirTree.node subdirs files =>
      ⟨root, subdirs.map Prod.fst, files⟩ :: walkSubs root subdirs

def walkSubs (root : Str) : List (Str × DirTree) → List WalkFrame
  | [] => []
  | (nm, t) :: rest =>
      (if isHidden nm then [] else walk (pathJoin root nm) t) ++ walkSubs root rest
end

/-- The body of the per-file loop (source lines 243-265 and, identically
with root = directory_path, lines 285-305). -/
def scanFile (repl pfx sfx root : Str) (st : ScanState) (filename : Str) : ScanState :=
  if st.stopped then st
  else if MAX_FILES_LIMIT < st.stats.total_files_scanned + 1 then
    { st with
      stats := { st.stats with total_files_scanned := st.stats.total_files_scanned + 1 },
      stopped := true }
  else if isHidden filename then
    { st with
      stats := { st.stats with
        total_files_scanned := st.stats.total_files_scanned + 1,
        hidden_files_skipped := st.stats.hidden_files_skipped + 1 } }
  else if (generate_new_filename filename repl pfx sfx).2 then
    { st with
      entries := st.entries ++
        [⟨pathJoin root filename, pathJoin root (generate_new_filename filename repl pfx sfx).1,
          filename, (generate_new_filename filename repl pfx sfx).1⟩],
      stats := { st.stats with
        total_files_scanned := st.stats.total_files_scanned + 1,
        files_to_rename := st.stats.files_to_rename + 1 } }
  else
    { st with
      stats := { st.stats with
        total_files_scanned := st.stats.total_files_scanned + 1,
        files_already_clean := st.stats.files_already_clean + 1 } }

/-- Processing of one os.walk frame (source lines 235-265): count the
directory, count the hidden subdirectories it shows, then run the file
loop on its filenames. -/
def scanFrame (repl pfx sfx : Str) (st : ScanState) (f : WalkFrame) : ScanState :=
  if st.stopped then st
  else
    (f.filenames.foldl (scanFile repl pfx sfx f.root)
      { st with
        stats := { st.stats with
          directories_scanned := st.stats.directories_scanned + 1,
          hidden_dirs_skipped := st.stats.hidden_dirs_skipped +
            (f.dirnames.filter (fun d => isHidden d)).length } })

/-- collect_files_to_rename with recursive=True (source lines 233-265). -/
def collect_recursive (directory_path repl pfx sfx : Str) (t : DirTree) : ScanState :=
  (walk directory_path t).foldl (scanFrame repl pfx sfx) initScanState

/-- One entry of the os.listdir result in the non-recursive branch: the name
and whether os.path.isdir holds for it. -/
def nonrecStep (directory_path repl pfx sfx : Str) (st : ScanState) (ent : Str × Bool) :
    ScanState :=
  if st.stopped then st
  else if ent.2 then
    if isHidden ent.1 then
      { st with
        stats := { st.stats with hidden_dirs_skipped := st.stats.hidden_dirs_skipped + 1 } }
    else st
  else scanFile repl pfx sfx directory_path st ent.1

/-- collect_files_to_rename with recursive=False (source lines 266-307).
listing = none models os.listdir raising PermissionError; the returned Bool
records whether the "Permission denied" error message was printed. -/
def collect_nonrec (directory_path repl pfx sfx : Str)
    (listing : Option (List (Str × Bool))) : ScanState × Bool :=
  match listing with
  | none =>
      ({ initScanState with stats := { initStats with directories_scanned := 1 } }, true)
  | some es =>
      (es.foldl (nonrecStep directory_path repl pfx sfx)
        { initScanState with stats := { initStats with directories_scanned := 1 } }, false)

/-- Number of files the pruned walk of the tree presents to the scanner. -/
def walkFileCount (directory_path : Str) (t : DirTree) : Nat :=
  ((walk directory_path t).map (fun f => f.filenames.length)).sum

/-- The invariant of claim C4 on a listed entry. -/
def goodEntry (e : ScanEntry) : Prop :=
  e.new_name ≠ e.original_name ∧ isHidden e.original_name = false

theorem scanFile_good (repl pfx sfx root : Str) (st : ScanState) (fn : Str)
    (h : ∀ e ∈ st.entries, goodEntry e) :
    ∀ e ∈ (scanFile repl pfx sfx root st fn).entries, goodEntry e := by
  intro e he
  unfold scanFile at he
  by_cases h0 : st.stopped = true
  · rw [if_pos h0] at he; exact h e he
  · rw [if_neg h0] at he
    by_cases h1 : MAX_FILES_LIMIT < st.stats.total_files_scanned + 1
    · rw [if_pos h1] at he; exact h e he
    · rw [if_neg h1] at he
      by_cases h2 : isHidden fn = true
      · rw [if_pos h2] at he; exact h e he
      · rw [if_neg h2] at he
        by_cases h3 : (generate_new_filename fn repl pfx sfx).2 = true
        · rw [if_pos h3] at he
          simp only [List.mem_append, List.mem_singleton] at he
          rcases he with he | he
          · exact h e he
          · subst he
            exact ⟨(gen_snd_iff fn repl pfx sfx).mp h3, by simpa using h2⟩
        · rw [if_neg h3] at he; exact h e he

theorem scanFiles_good (repl pfx sfx root : Str) (fns : List Str) (st : ScanState)
    (h : ∀ e ∈ st.entries, goodEntry e) :
    ∀ e ∈ (fns.foldl (scanFile repl pfx sfx root) st).entries, goodEntry e := by
  induction fns generalizing st with
  | nil => exact h
  | cons fn rest ih => exact ih _ (scanFile_good repl pfx sfx root st fn h)

theorem scanFrame_good (repl pfx sfx : Str) (st : ScanState) (f : WalkFrame)
    (h : ∀ e ∈ st.entries, goodEntry e) :
    ∀ e ∈ (scanFrame repl pfx sfx st f).entries, goodEntry e := by
  unfold scanFrame
  by_cases h0 : st.stopped = true
  · rw [if_pos h0]; exact h
  · rw [if_neg h0]
    exact scanFiles_good repl pfx sfx f.root f.filenames _ h

theorem scanFrames_good (repl pfx sfx : Str) (fl : List WalkFrame) (st : ScanState)
    (h : ∀ e ∈ st.entries, goodEntry e) :
    ∀ e ∈ (fl.foldl (scanFrame repl pfx sfx) st).entries, goodEntry e := by
  induction fl generalizing st with
  | nil => exact h
  | cons f rest ih => exact ih _ (scanFrame_good repl pfx sfx st f h)

theorem nonrecStep_good (dp repl pfx sfx : Str) (st : ScanState) (ent : Str × Bool)
    (h : ∀ e ∈ st.entries, goodEntry e) :
    ∀ e ∈ (nonrecStep dp repl pfx sfx st ent).entries, goodEntry e := by
  unfold nonrecStep
  by_cases h0 : st.stopped = true
  · rw [if_pos h0]; exact h
  · rw [if_neg h0]
    by_cases h1 : ent.2 = true
    · rw [if_pos h1]
      by_cases h2 : isHidden ent.1 = true
      · rw [if_pos h2]; exact h
      · rw [if_neg h2]; exact h
    · rw [if_neg h1]; exact scanFile_good repl pfx sfx dp st ent.1 h

theorem nonrecSteps_good (dp repl pfx sfx : Str) (es : List (Str × Bool)) (st : ScanState)
    (h : ∀ e ∈ st.entries, goodEntry e) :
    ∀ e ∈ (es.foldl (nonrecStep dp repl pfx sfx) st).entries, goodEntry e := by
  induction es generalizing st with
  | nil => exact h
  | cons x rest ih => exact ih _ (nonrecStep_good dp repl pfx sfx st x h)

/-- A tree holding only hidden files and a hidden subdirectory. -/
def hiddenOnlyTree : DirTree :=
  DirTree.node [(".sub".toList, DirTree.node [] ["x.y.txt".toList])]
    [".a.txt".toList, ".b".toList]

/-- A one-directory tree with a single renamable file, used by the witness. -/
def sampleTree : DirTree := DirTree.node [] ["a.b.txt".toList]

/-- C4: in both scan modes every listed ScanEntry has new_name different
from original_name and a non-hidden original_name, and scanning a tree that
holds only hidden files and hidden subdirectories lists nothing, with the
stats counting the two hidden files and the hidden directory as skipped. -/
theorem C4_scan_invariant :
    (∀ (dp repl pfx sfx : Str) (t : DirTree),
      ∀ e ∈ (collect_recursive dp repl pfx sfx t).entries,
        e.new_name ≠ e.original_name ∧ isHidden e.original_name = false) ∧
    (∀ (dp repl pfx sfx : Str) (listing : List (Str × Bool)),
      ∀ e ∈ (collect_nonrec dp repl pfx sfx (some listing)).1.entries,
        e.new_name ≠ e.original_name ∧ isHidden e.original_name = false) ∧
    (collect_recursive "/d".toList "_".toList [] [] hiddenOnlyTree).entries = [] ∧
    (collect_recursive "/d".toList "_".toList [] [] hiddenOnlyTree).stats =
      ⟨2, 2, 1, 0, 0, 1⟩ := by
  refine ⟨?_, ?_, by decide, by decide⟩
  · intro dp repl pfx sfx t
    exact scanFrames_good repl pfx sfx (walk dp t) initScanState (by intro e he; cases he)
  · intro dp repl pfx sfx listing
    exact nonrecSteps_good dp repl pfx sfx listing _ (by intro e he; cases he)

theorem C4_scan_invariant_witness :
    (⟨"/d/a.b.txt".toList, "/d/a_b.txt".toList, "a.b.txt".toList, "a_b.txt".toList⟩ :
        ScanEntry) ∈
      (collect_recursive "/d".toList "_".toList [] [] sampleTree).entries ∧
    (("a_b.txt".toList : Str) ≠ "a.b.txt".toList ∧ isHidden "a.b.txt".toList = false) :=
  ⟨by decide,
    C4_scan_invariant.1 "/d".toList "_".toList [] [] sampleTree
      ⟨"/d/a.b.txt".toList, "/d/a_b.txt".toList, "a.b.txt".toList, "a_b.txt".toList⟩
      (by decide)⟩

/-- The arithmetic invariant behind the scan cap of claim C5. -/
def capInv (st : ScanState) : Prop :=
  st.entries.length ≤ st.stats.total_files_scanned ∧
  (st.stopped = false → st.stats.total_files_scanned ≤ MAX_FILES_LIMIT) ∧
  st.entries.length ≤ MAX_FILES_LIMIT

theorem scanFile_capInv (repl pfx sfx root : Str) (st : ScanState) (fn : Str)
    (h : capInv st) : capInv (scanFile repl pfx sfx root st fn) := by
  obtain ⟨ha, hb, hc⟩ := h
  unfold scanFile
  by_cases h0 : st.stopped = true
  · rw [if_pos h0]; exact ⟨ha, hb, hc⟩
  · rw [if_neg h0]
    have htot : st.stats.total_files_scanned ≤ MAX_FILES_LIMIT := hb (by simpa using h0)
    by_cases h1 : MAX_FILES_LIMIT < st.stats.total_files_scanned + 1
    · rw [if_pos h1]
      refine ⟨?_, ?_, hc⟩
      · show st.entries.length ≤ st.stats.total_files_scanned + 1
        omega
      · intro hco; exact absurd (show (true : Bool) = false from hco) (by decide)
    · rw [if_neg h1]
      by_cases h2 : isHidden fn = true
      · rw [if_pos h2]
        refine ⟨?_, ?_, hc⟩
        · show st.entries.length ≤ st.stats.total_files_scanned + 1
          omega
        · intro _
          show st.stats.total_files_scanned + 1 ≤ MAX_FILES_LIMIT
          omega
      · rw [if_neg h2]
        by_cases h3 : (generate_new_filename fn repl pfx sfx).2 = true
        · rw [if_pos h3]
          refine ⟨?_, ?_, ?_⟩
          · show (st.entries ++ [_]).length ≤ st.stats.total_files_scanned + 1
            rw [List.length_append]
            simp only [List.length_singleton]
            omega
          · intro _
            show st.stats.total_files_scanned + 1 ≤ MAX_FILES_LIMIT
            omega
          · show (st.entries ++ [_]).length ≤ MAX_FILES_LIMIT
            rw [List.length_append]
            simp only [List.length_singleton]
            omega
        · rw [if_neg h3]
          refine ⟨?_, ?_, hc⟩
          · show st.entries.length ≤ st.stats.total_files_scanned + 1
            omega
          · intro _
            show st.stats.total_files_scanned + 1 ≤ MAX_FILES_LIMIT
            omega

theorem scanFiles_capInv (repl pfx sfx root : Str) (fns : List Str) (st : ScanState)
    (h : capInv st) : capInv (fns.foldl (scanFile repl pfx sfx root) st) := by
  induction fns generalizing st with
  | nil => exact h
  | cons fn rest ih => exact ih _ (scanFile_capInv repl pfx sfx root st fn h)

theorem scanFrame_capInv (repl pfx sfx : Str) (st : ScanState) (f : WalkFrame)
    (h : capInv st) : capInv (scanFrame repl pfx sfx st f) := by
  unfold scanFrame
  by_cases h0 : st.stopped = true
  · rw [if_pos h0]; exact h
  · rw [if_neg h0]
    exact scanFiles_capInv repl pfx sfx f.root f.filenames _ h

theorem scanFrames_capInv (repl pfx sfx : Str) (fl : List WalkFrame) (st : ScanState)
    (h : capInv st) : capInv (fl.foldl (scanFrame repl pfx sfx) st) := by
  induction fl generalizing st with
  | nil => exact h
  | cons f rest ih => exact ih _ (scanFrame_capInv repl pfx sfx st f h)

theorem scanFile_total_of_live (repl pfx sfx root : Str) (st : ScanState) (fn : Str)
    (h : (scanFile repl pfx sfx root st fn).stopped = false) :
    st.stopped = false ∧
    (scanFile repl pfx sfx root st fn).stats.total_files_scanned =
      st.stats.total_files_scanned + 1 := by
  unfold scanFile at h ⊢
  by_cases h0 : st.stopped = true
  · rw [if_pos h0] at h; rw [h] at h0; exact absurd h0 (by decide)
  · rw [if_neg h0] at h ⊢
    by_cases h1 : MAX_FILES_LIMIT < st.stats.total_files_scanned + 1
    · rw [if_pos h1] at h
      exact absurd (show (true : Bool) = false from h) (by decide)
    · rw [if_neg h1] at h ⊢
      by_cases h2 : isHidden fn = true
      · rw [if_pos h2]; exact ⟨by simpa using h0, rfl⟩
      · rw [if_neg h2]
        by_cases h3 : (generate_new_filename fn repl pfx sfx).2 = true
        · rw [if_pos h3]; exact ⟨by simpa using h0, rfl⟩
        · rw [if_neg h3]; exact ⟨by simpa using h0, rfl⟩

theorem scanFiles_total_of_live (repl pfx sfx root : Str) (fns : List Str) (st : ScanState)
    (h : (fns.foldl (scanFile repl pfx sfx root) st).stopped = false) :
    st.stopped = false ∧
    (fns.foldl (scanFile repl pfx sfx root) st).stats.total_files_scanned =
      st.stats.total_files_scanned + fns.length := by
  induction fns generalizing st with
  | nil => exact ⟨h, by simp⟩
  | cons fn rest ih =>
      simp only [List.foldl_cons] at h ⊢
      obtain ⟨hs, htot⟩ := ih _ h
      obtain ⟨hs0, htot0⟩ := scanFile_total_of_live repl pfx sfx root st fn hs
      refine ⟨hs0, ?_⟩
      rw [htot, htot0, List.length_cons]
      omega

theorem scanFrame_total_of_live (repl pfx sfx : Str) (st : ScanState) (f : WalkFrame)
    (h : (scanFrame repl pfx sfx st f).stopped = false) :
    st.stopped = false ∧
    (scanFrame repl pfx sfx st f).stats.total_files_scanned =
      st.stats.total_files_scanned + f.filenames.length := by
  unfold scanFrame at h ⊢
  by_cases h0 : st.stopped = true
  · rw [if_pos h0] at h; rw [h] at h0; exact absurd h0 (by decide)
  · rw [if_neg h0] at h ⊢
    obtain ⟨_, htot⟩ := scanFiles_total_of_live repl pfx sfx f.root f.filenames _ h
    exact ⟨by simpa using h0, htot⟩

theorem scanFrames_total_of_live (repl pfx sfx : Str) (fl : List WalkFrame) (st : ScanState)
    (h : (fl.foldl (scanFrame repl pfx sfx) st).stopped = false) :
    st.stopped = false ∧
    (fl.foldl (scanFrame repl pfx sfx) st).stats.total_files_scanned =
      st.stats.total_files_scanned + (fl.map (fun f => f.filenames.length)).sum := by
  induction fl generalizing st with
  | nil => exact ⟨h, by simp⟩
  | cons f rest ih =>
      simp only [List.foldl_cons] at h ⊢
      obtain ⟨hs, htot⟩ := ih _ h
      obtain ⟨hs0, htot0⟩ := scanFrame_total_of_live repl pfx sfx st f hs
      refine ⟨hs0, ?_⟩
      rw [htot, htot0, List.map_cons, List.sum_cons]
      omega

/-- C5: the recursive scan never lists more than MAX_FILES_LIMIT = 10000
entries, and whenever the walk presents more files than the cap the scan
stops early (the warning branch at source lines 246-248 runs), returning the
entries and stats accumulated so far. -/
theorem C5_scan_cap (dp repl pfx sfx : Str) (t : DirTree) :
    (collect_recursive dp repl pfx sfx t).entries.length ≤ MAX_FILES_LIMIT ∧
    (MAX_FILES_LIMIT < walkFileCount dp t →
      (collect_recursive dp repl pfx sfx t).stopped = true) := by
  have hinv : capInv (collect_recursive dp repl pfx sfx t) :=
    scanFrames_capInv repl pfx sfx (walk dp t) initScanState
      ⟨Nat.le_refl 0, fun _ => by norm_num [MAX_FILES_LIMIT, initScanState, initStats],
       by norm_num [MAX_FILES_LIMIT, initScanState]⟩
  refine ⟨hinv.2.2, ?_⟩
  intro hgt
  by_contra hstop
  have hlive : (collect_recursive dp repl pfx sfx t).stopped = false := by
    simpa using hstop
  obtain ⟨_, htot⟩ :=
    scanFrames_total_of_live repl pfx sfx (walk dp t) initScanState hlive
  have hle := hinv.2.1 hlive
  unfold collect_recursive at hle
  unfold walkFileCount at hgt
  omega

theorem C5_scan_cap_witness :
    MAX_FILES_LIMIT <
      walkFileCount "/d".toList (DirTree.node [] (List.replicate 10001 ['a'])) ∧
    (collect_recursive "/d".toList "_".toList [] []
      (DirTree.node [] (List.replicate 10001 ['a']))).stopped = true := by
  have hcount : MAX_FILES_LIMIT <
      walkFileCount "/d".toList (DirTree.node [] (List.replicate 10001 ['a'])) := by
    norm_num [walkFileCount, walk, walkSubs, MAX_FILES_LIMIT]
  exact ⟨hcount,
    (C5_scan_cap "/d".toList "_".toList [] []
      (DirTree.node [] (List.replicate 10001 ['a']))).2 hcount⟩

/-- C8 counterexample: after a PermissionError on the directory listing the
returned scan statistics are identical to those of an error-free scan of an
empty directory, so no error counter in the statistics is incremented (the
stats dictionary of source lines 224-231 has no error field at all). -/
theorem C8_no_error_counter :
    (collect_nonrec "/d".toList "_".toList [] [] none).1.stats =
      (collect_nonrec "/d".toList "_".toList [] [] (some [])).1.stats ∧
    (collect_nonrec "/d".toList "_".toList [] [] none).1.stats = ⟨0, 0, 0, 0, 0, 1⟩ :=
  ⟨rfl, rfl⟩

/-- C8 amended: a PermissionError on the directory listing aborts the scan,
which returns normally (the run continues) with the entries and stats
accumulated so far — no stats counter records the error; the "Permission
denied" message is printed to the console instead (flag true). -/
theorem C8_permission_error_reported (dp repl pfx sfx : Str) :
    collect_nonrec dp repl pfx sfx none =
      ({ entries := [], stats := ⟨0, 0, 0, 0, 0, 1⟩, stopped := false }, true) := rfl

/-- The filesystem as the set of currently existing paths (ordered list;
membership is what os.path.exists observes). -/
abbrev FS := List Str

/-- One line of the log_entries list (source lines 395, 402, 408, 414);
the literal message texts are console formatting and are not modelled. -/
inductive LogLine where
  | renamed (orig_path new_path : Str)
  | skipped (orig_path new_path : Str)
  | failed (orig_path : Str)
deriving DecidableEq

/-- The loop state of apply_renames (source lines 377-379) together with
the filesystem it mutates. -/
structure ApplyState where
  fs : FS
  success_count : Nat
  error_count : Nat
  log_entries : List LogLine
deriving DecidableEq

/-- One iteration of the apply loop (source lines 389-414). osFail models
the environment raising PermissionError/OSError from os.rename; os.rename
on a missing source path raises OSError as well, so that case lands in the
failed branch too. -/
def applyEntry (osFail : ScanEntry → Bool) (st : ApplyState) (e : ScanEntry) : ApplyState :=
  if e.new_path ∈ st.fs then
    { st with error_count := st.error_count + 1,
              log_entries := st.log_entries ++ [LogLine.skipped e.original_path e.new_path] }
  else if e.original_path ∉ st.fs ∨ osFail e = true then
    { st with error_count := st.error_count + 1,
              log_entries := st.log_entries ++ [LogLine.failed e.original_path] }
  else
    { fs := (st.fs.filter (fun p => p ≠ e.original_path)) ++ [e.new_path],
      success_count := st.success_count + 1,
      error_count := st.error_count,
      log_entries := st.log_entries ++ [LogLine.renamed e.original_path e.new_path] }

/-- The whole for-loop of apply_renames. -/
def applyLoop (osFail : ScanEntry → Bool) (st : ApplyState) : List ScanEntry → ApplyState
  | [] => st
  | e :: rest => applyLoop osFail (applyEntry osFail st e) rest

/-- What apply_renames returns, plus the filesystem it leaves behind. -/
structure ApplyResult where
  success_count : Nat
  error_count : Nat
  log_path : Option Str
  fs : FS
deriving DecidableEq

/-- apply_renames (source lines 363-436). logPath stands for the
timestamped log path computed at lines 381-383; logFail models the IOError
branch at lines 432-434, which downgrades the log to a warning and returns
log_path = none. A successful log write creates the log file on disk. -/
def apply_renames (osFail : ScanEntry → Bool) (logFail : Bool) (fs : FS) (logPath : Str)
    (files_to_rename : List ScanEntry) : ApplyResult :=
  if files_to_rename.isEmpty then ⟨0, 0, none, fs⟩
  else
    (fun st =>
      if logFail then ⟨st.success_count, st.error_count, none, st.fs⟩
      else ⟨st.success_count, st.error_count, some logPath,
            if logPath ∈ st.fs then st.fs else st.fs ++ [logPath]⟩)
    (applyLoop osFail ⟨fs, 0, 0, []⟩ files_to_rename)

/-- Python response.strip() strips this whitespace (ASCII fragment). -/
def pyIsSpace (c : Char) : Bool :=
  c == ' ' || c == '\t' || c == '\n' || c == '\x0b' || c == '\x0c' || c == '\r'

/-- response.strip() (source line 601). -/
def stripStr (s : Str) : Str :=
  ((s.dropWhile pyIsSpace).reverse.dropWhile pyIsSpace).reverse

/-- response.lower() for the ASCII range (source line 601). -/
def lowerStr (s : Str) : Str := s.map Char.toLower

/-- The confirmation test of source line 603: response.strip().lower()
compared with the literal "yes". -/
def confirmAccepted (response : Str) : Bool :=
  lowerStr (stripStr response) == "yes".toList

/-- Exit code plus whether apply_renames ran, and the filesystem afterward:
the tail of main after the preview (source lines 582-626). When --apply is
absent main prints instructions and returns 0; when the entry list is empty
the confirmation block is skipped and main returns 0; otherwise the prompt
answer decides between cancelling (return 0, nothing mutated) and running
apply_renames. -/
structure RunResult where
  fs : FS
  exitCode : Nat
  applied : Bool
deriving DecidableEq

def mainAfterPreview (applyFlag : Bool) (files_to_rename : List ScanEntry) (response : Str)
    (osFail : ScanEntry → Bool) (logFail : Bool) (logPath : Str) (fs : FS) : RunResult :=
  if applyFlag = false then ⟨fs, 0, false⟩
  else if files_to_rename.isEmpty then ⟨fs, 0, false⟩
  else if confirmAccepted response then
    ⟨(apply_renames osFail logFail fs logPath files_to_rename).fs, 0, true⟩
  else ⟨fs, 0, false⟩

/-- C2: apply_renames runs exactly when --apply was given, the scan listed
at least one entry, and the prompt answer is the affirmative accepted at
source line 603; in every other case the run ends with exit code 0 and the
filesystem untouched, and any filesystem change implies apply_renames ran. -/
theorem C2_confirm_gate (applyFlag : Bool) (files_to_rename : List ScanEntry)
    (response : Str) (osFail : ScanEntry → Bool) (logFail : Bool) (logPath : Str) (fs : FS) :
    ((mainAfterPreview applyFlag files_to_rename response osFail logFail logPath fs).applied
        = true ↔
      (applyFlag = true ∧ files_to_rename ≠ [] ∧ confirmAccepted response = true)) ∧
    ((mainAfterPreview applyFlag files_to_rename response osFail logFail logPath fs).applied
        = false →
      mainAfterPreview applyFlag files_to_rename response osFail logFail logPath fs =
        ⟨fs, 0, false⟩) ∧
    ((mainAfterPreview applyFlag files_to_rename response osFail logFail logPath fs).fs ≠ fs →
      (mainAfterPreview applyFlag files_to_rename response osFail logFail logPath fs).applied
        = true) := by
  unfold mainAfterPreview
  by_cases h0 : applyFlag = false
  · rw [if_pos h0]
    refine ⟨?_, fun _ => rfl, fun hne => absurd rfl hne⟩
    simp [h0]
  · rw [if_neg h0]
    by_cases h1 : files_to_rename.isEmpty = true
    · rw [if_pos h1]
      refine ⟨?_, fun _ => rfl, fun hne => absurd rfl hne⟩
      have : files_to_rename = [] := by simpa [List.isEmpty_iff] using h1
      simp [this]
    · rw [if_neg h1]
      by_cases h2 : confirmAccepted response = true
      · rw [if_pos h2]
        refine ⟨?_, ?_, fun _ => rfl⟩
        · simp only [true_iff]
          refine ⟨by simpa using h0, ?_, h2⟩
          simpa [List.isEmpty_iff] using h1
        · intro hco
          exact absurd (show (true : Bool) = false from hco) (by decide)
      · rw [if_neg h2]
        refine ⟨?_, fun _ => rfl, fun hne => absurd rfl hne⟩
        simp [h2]

theorem C2_confirm_gate_witness :
    (mainAfterPreview false [] "no".toList (fun _ => false) false "/d/log.txt".toList
        ["/d/a".toList]).applied = false ∧
    mainAfterPreview false [] "no".toList (fun _ => false) false "/d/log.txt".toList
        ["/d/a".toList] =
      ⟨["/d/a".toList], 0, false⟩ := by
  have h := C2_confirm_gate false [] "no".toList (fun _ => false) false
    "/d/log.txt".toList ["/d/a".toList]
  have ha : (mainAfterPreview false [] "no".toList (fun _ => false) false
      "/d/log.txt".toList ["/d/a".toList]).applied = false := by decide
  exact ⟨ha, h.2.1 ha⟩

/-- C3: when the destination path of an entry already exists at processing
time, the apply loop performs no rename for it: the filesystem is left
exactly as it was (so both the source and the destination path remain
present), a SKIPPED line is recorded, error_count is incremented, and the
loop continues with the remaining entries from that same state. -/
theorem C3_skip_on_existing_destination (osFail : ScanEntry → Bool) (st : ApplyState)
    (e : ScanEntry) (rest : List ScanEntry) (hdest : e.new_path ∈ st.fs) :
    applyEntry osFail st e =
      { st with error_count := st.error_count + 1,
                log_entries := st.log_entries ++
                  [LogLine.skipped e.original_path e.new_path] } ∧
    (applyEntry osFail st e).fs = st.fs ∧
    (e.original_path ∈ st.fs → e.original_path ∈ (applyEntry osFail st e).fs) ∧
    e.new_path ∈ (applyEntry osFail st e).fs ∧
    applyLoop osFail st (e :: rest) = applyLoop osFail (applyEntry osFail st e) rest := by
  have hstep : applyEntry osFail st e =
      { st with error_count := st.error_count + 1,
                log_entries := st.log_entries ++
                  [LogLine.skipped e.original_path e.new_path] } := by
    unfold applyEntry
    rw [if_pos hdest]
  refine ⟨hstep, by rw [hstep], ?_, ?_, rfl⟩
  · intro hsrc; rw [hstep]; exact hsrc
  · rw [hstep]; exact hdest

theorem C3_skip_on_existing_destination_witness :
    (("/d/b".toList : Str) ∈ (["/d/a".toList, "/d/b".toList] : FS)) ∧
    applyEntry (fun _ => false)
        ⟨["/d/a".toList, "/d/b".toList], 0, 0, []⟩
        ⟨"/d/a".toList, "/d/b".toList, "a".toList, "b".toList⟩ =
      ⟨["/d/a".toList, "/d/b".toList], 0, 1,
        [LogLine.skipped "/d/a".toList "/d/b".toList]⟩ := by
  have h := C3_skip_on_existing_destination (fun _ => false)
    ⟨["/d/a".toList, "/d/b".toList], 0, 0, []⟩
    ⟨"/d/a".toList, "/d/b".toList, "a".toList, "b".toList⟩ [] (by decide)
  exact ⟨by decide, h.1⟩

theorem applyLoop_counts (osFail : ScanEntry → Bool) (es : List ScanEntry) (st : ApplyState) :
    (applyLoop osFail st es).success_count + (applyLoop osFail st es).error_count =
      st.success_count + st.error_count + es.length := by
  induction es generalizing st with
  | nil => simp [applyLoop]
  | cons e rest ih =>
      show (applyLoop osFail (applyEntry osFail st e) rest).success_count +
          (applyLoop osFail (applyEntry osFail st e) rest).error_count =
        st.success_count + st.error_count + (e :: rest).length
      rw [ih (applyEntry osFail st e)]
      have hstep : (applyEntry osFail st e).success_count +
          (applyEntry osFail st e).error_count =
          st.success_count + st.error_count + 1 := by
        unfold applyEntry
        by_cases h0 : e.new_path ∈ st.fs
        · rw [if_pos h0]; show st.success_count + (st.error_count + 1) = _; omega
        · rw [if_neg h0]
          by_cases h1 : e.original_path ∉ st.fs ∨ osFail e = true
          · rw [if_pos h1]; show st.success_count + (st.error_count + 1) = _; omega
          · rw [if_neg h1]; show st.success_count + 1 + st.error_count = _; omega
      rw [List.length_cons]
      omega

/-- C9: apply_renames accounts every entry exactly once: the returned
success_count plus error_count equals the length of the entry list, for the
empty list included (each entry lands in exactly one of the renamed,
skipped or failed branches and the loop never aborts early). -/
theorem C9_counts_partition (osFail : ScanEntry → Bool) (logFail : Bool) (fs : FS)
    (logPath : Str) (files_to_rename : List ScanEntry) :
    (apply_renames osFail logFail fs logPath files_to_rename).success_count +
      (apply_renames osFail logFail fs logPath files_to_rename).error_count =
      files_to_rename.length := by
  unfold apply_renames
  by_cases h0 : files_to_rename.isEmpty = true
  · rw [if_pos h0]
    have : files_to_rename = [] := by simpa [List.isEmpty_iff] using h0
    simp [this]
  · rw [if_neg h0]
    have h := applyLoop_counts osFail files_to_rename ⟨fs, 0, 0, []⟩
    by_cases h1 : logFail = true
    · rw [h1]
      simpa using h
    · have h1f : logFail = false := by simpa using h1
      rw [h1f]
      simpa using h

/-- C10: called on the empty entry list, apply_renames returns
(0, 0, None) at once and the filesystem — log file included — is left
entirely unchanged. -/
theorem C10_empty_list_frame (osFail : ScanEntry → Bool) (logFail : Bool) (fs : FS)
    (logPath : Str) :
    apply_renames osFail logFail fs logPath [] = ⟨0, 0, none, fs⟩ := rfl

end BatchRenamer
